import Mathlib

/-!
Shallow embedding of the isolated-plugin resolution engine of
`packages/vite/src/node/plugin.ts` (`resolveIsolatedPlugins` and
`asyncFlattenIsolatedPlugin`), together with theorems checking the
natural-language specification of that code.

Modelling conventions:
* JavaScript values that can occur in an `IsolatedPluginOption` tree are
  modelled by the inductive `PluginOptionVal`.  Concrete plugin objects are
  `plug`, constructor functions are `func f` where `f` is an identifier into
  an external constructor table, promises are `prom` (resolving) / `promErr`
  (rejecting), arrays are `arr`, and the JS values `false`, `null`,
  `undefined` are `fls`, `nul`, `undefVal`.  `str` and `num` model malformed
  primitive values that the TS types exclude but that the spec's
  error-handling section discusses.
* Asynchrony is reduced to values: `await` of a promise yields its settled
  content (`awaitVal`).  A synchronous constructor throw and a rejected
  returned promise both surface as `Except.error`.
* The `do / while` loop of `asyncFlattenIsolatedPlugin` is given a fuel
  parameter; `none` means the loop was still running after `fuel` passes
  (potential divergence), `some r` means the loop finished with outcome `r`.
* Plugin objects are modelled without `then` or `split` members, matching
  the spec's notion of a concrete `Plugin` value.
-/

namespace ViteIsolatedPlugins

/-- A concrete isolated plugin object (`IsolatedPlugin` in plugin.ts).
Only the fields that the claims mention are carried. -/
structure IsolatedPlugin where
  name : String
  sharedDuringBuild : Bool := false
deriving DecidableEq

/-- Errors carried by a synchronous throw or a promise rejection. -/
abbrev Err := String

/-- A JavaScript value that can appear while flattening an
`IsolatedPluginOption` tree: a concrete plugin, a constructor function
(identified by a table index), an array, a promise (resolving or rejecting),
a malformed string or number, or one of `false` / `null` / `undefined`. -/
inductive PluginOptionVal where
  | plug (p : IsolatedPlugin)
  | func (f : Nat)
  | arr (xs : List PluginOptionVal)
  | prom (v : PluginOptionVal)
  | promErr (e : Err)
  | str (s : String)
  | num (n : Int)
  | fls
  | nul
  | undefVal

/-- A top-level entry of `environment.config.plugins`.

Modelled from the spec: section 4.2 states that the top-level PluginOption
list reaching `resolveIsolatedPlugins` consists only of
`Plugin | EnvironmentConstructor` entries (one level, not nested): the
config-resolution code that produces this list (flattening user config and
evaluating `apply` predicates) is not part of the shown source. -/
inductive TopEntry where
  | plug (p : IsolatedPlugin)
  | ctor (f : Nat)
deriving DecidableEq

/-- The part of the environment's config that resolution reads. -/
structure PluginConfig where
  plugins : List TopEntry
deriving DecidableEq

/-- An execution environment handle (`PluginEnvironment` in plugin.ts):
a name identifying the environment plus its config snapshot. -/
structure PluginEnvironment where
  envName : String
  config : PluginConfig
deriving DecidableEq

/-- Semantics of constructor functions: table index and environment map to
the value the call returns, or to `Except.error` for a synchronous throw. -/
abbrev CtorTable := Nat → PluginEnvironment → Except Err PluginOptionVal

namespace PluginOptionVal

/-- `typeof p === 'function'`. -/
def isFunction : PluginOptionVal → Bool
  | func _ => true
  | _ => false

/-- `Array.isArray(v)`. -/
def isArr : PluginOptionVal → Bool
  | arr _ => true
  | _ => false

/-- JS truthiness, as used by `.filter(Boolean)` and `if (isolatedPlugin)`:
`false`, `null`, `undefined`, `0` and the empty string are falsy. -/
def truthy : PluginOptionVal → Bool
  | fls | nul | undefVal => false
  | str s => !(s = "")
  | num n => !(n = 0)
  | _ => true

/-- The loop condition `v?.then || v?.split`: truthy `then` member means a
promise (resolving or rejecting), truthy `split` member means a string.
Functions, arrays, numbers and plugin objects have neither member. -/
def pendingLike : PluginOptionVal → Bool
  | prom _ | promErr _ => true
  | str _ => true
  | _ => false

/-- The three spec-listed absent values `false | null | undefined`. -/
def falsyConst : PluginOptionVal → Bool
  | fls | nul | undefVal => true
  | _ => false

end PluginOptionVal

open PluginOptionVal

/-- `await v`: unwrap promise chains; a rejection surfaces as an error,
any non-promise value is returned unchanged. -/
def awaitVal : PluginOptionVal → Except Err PluginOptionVal
  | .prom v => awaitVal v
  | .promErr e => .error e
  | v => .ok v

/-- One element of `plugins.map((p) => (typeof p === 'function' ? p(environment) : p))`. -/
def mapOne (tbl : CtorTable) (env : PluginEnvironment) : PluginOptionVal → Except Err PluginOptionVal
  | .func f => tbl f env
  | v => .ok v

/-- The `.map` call of one flatten pass: invoke every top-level function
with the environment, left to right; a synchronous throw aborts the map. -/
def mapInvoke (tbl : CtorTable) (env : PluginEnvironment) : List PluginOptionVal → Except Err (List PluginOptionVal)
  | [] => .ok []
  | p :: rest =>
    match mapOne tbl env p with
    | .error e => .error e
    | .ok v =>
      match mapInvoke tbl env rest with
      | .error e => .error e
      | .ok vs => .ok (v :: vs)

/-- `await Promise.all(...)`: settle every top-level element; a rejection
fails the whole pass. -/
def awaitAll : List PluginOptionVal → Except Err (List PluginOptionVal)
  | [] => .ok []
  | p :: rest =>
    match awaitVal p with
    | .error e => .error e
    | .ok v =>
      match awaitAll rest with
      | .error e => .error e
      | .ok vs => .ok (v :: vs)

mutual

/-- `.flat(Infinity)` applied to a single element: an array contributes its
recursively flattened contents, anything else contributes itself. -/
def flattenDeep : PluginOptionVal → List PluginOptionVal
  | .arr xs => flattenDeepList xs
  | v => [v]

/-- `.flat(Infinity)` applied to a list. -/
def flattenDeepList : List PluginOptionVal → List PluginOptionVal
  | [] => []
  | x :: xs => flattenDeep x ++ flattenDeepList xs

end

/-- One pass of the `do/while` body:
`(await Promise.all(plugins.map(...))).flat(Infinity).filter(Boolean)`. -/
def flattenPass (tbl : CtorTable) (env : PluginEnvironment) (l : List PluginOptionVal) : Except Err (List PluginOptionVal) :=
  match mapInvoke tbl env l with
  | .error e => .error e
  | .ok m =>
    match awaitAll m with
    | .error e => .error e
    | .ok a => .ok ((flattenDeepList a).filter truthy)

/-- The `do { ... } while (plugins.some((v) => v?.then || v?.split))` loop,
with a pass budget: `none` means the loop had not finished after `fuel`
passes; the body runs at least once. -/
def flattenLoop (tbl : CtorTable) (env : PluginEnvironment) : Nat → List PluginOptionVal → Option (Except Err (List PluginOptionVal))
  | 0, _ => none
  | fuel + 1, l =>
    match flattenPass tbl env l with
    | .error e => some (.error e)
    | .ok l' =>
      if l'.any pendingLike then flattenLoop tbl env fuel l' else some (.ok l')

/-- `asyncFlattenIsolatedPlugin(environment, plugins)`: wrap a non-array
input in a one-element array, then run the flatten loop. -/
def asyncFlattenIsolatedPlugin (tbl : CtorTable) (env : PluginEnvironment) (fuel : Nat) (plugins : PluginOptionVal) : Option (Except Err (List PluginOptionVal)) :=
  flattenLoop tbl env fuel (match plugins with | .arr xs => xs | v => [v])

/-- `await plugin(environment)` for a top-level constructor entry: the
synchronous call followed by awaiting its result. -/
def callCtor (tbl : CtorTable) (f : Nat) (env : PluginEnvironment) : Except Err PluginOptionVal :=
  match tbl f env with
  | .error e => .error e
  | .ok v => awaitVal v

/-- The `for (const plugin of environment.config.plugins)` loop of
`resolveIsolatedPlugins`: plain plugins are pushed unchanged; a constructor
is called and awaited, a falsy result contributes nothing, otherwise its
result is flattened and spliced in at the entry's position. -/
def resolveEntries (tbl : CtorTable) (env : PluginEnvironment) (fuel : Nat) : List TopEntry → Option (Except Err (List PluginOptionVal))
  | [] => some (.ok [])
  | .plug p :: rest =>
    match resolveEntries tbl env fuel rest with
    | none => none
    | some (.error e) => some (.error e)
    | some (.ok l) => some (.ok (.plug p :: l))
  | .ctor f :: rest =>
    match callCtor tbl f env with
    | .error e => some (.error e)
    | .ok v =>
      if truthy v then
        match asyncFlattenIsolatedPlugin tbl env fuel v with
        | none => none
        | some (.error e) => some (.error e)
        | some (.ok flat) =>
          match resolveEntries tbl env fuel rest with
          | none => none
          | some (.error e) => some (.error e)
          | some (.ok l) => some (.ok (flat ++ l))
      else resolveEntries tbl env fuel rest

/-- `resolveIsolatedPlugins(environment)`. -/
def resolveIsolatedPlugins (tbl : CtorTable) (fuel : Nat) (environment : PluginEnvironment) : Option (Except Err (List PluginOptionVal)) :=
  resolveEntries tbl environment fuel environment.config.plugins

/-! ### Erasure of `false | null | undefined`

`eraseV` removes the values `false`, `null`, `undefined` from every array
nesting level of a PluginOption tree (also inside promise contents).  The
spec's invariant that these values contribute no element and no ordering
slot is stated as invariance of the normalizer under this erasure. -/

mutual

/-- Erase `false | null | undefined` array members at every depth. -/
def eraseV : PluginOptionVal → PluginOptionVal
  | .arr xs => .arr (eraseList xs)
  | .prom v => .prom (eraseV v)
  | v => v

/-- Erase `false | null | undefined` elements of a list, recursively. -/
def eraseList : List PluginOptionVal → List PluginOptionVal
  | [] => []
  | x :: xs => if falsyConst x then eraseList xs else eraseV x :: eraseList xs

end

/-- Normal form of a pass outcome under erasure: errors unchanged, result
lists erased.  Two outcomes agree up to `false | null | undefined` exactly
when their normal forms are equal. -/
def eraseOutcome : Except Err (List PluginOptionVal) → Except Err (List PluginOptionVal)
  | .error e => .error e
  | .ok l => .ok (eraseList l)

/-! ### Occurrence counting of constructor functions

`occ f v` counts the nodes `func f` in a PluginOption tree (looking through
arrays and resolving promises), used to bound how often one constructor
occurrence can be invoked. -/

mutual

/-- Number of `func f` nodes in a tree. -/
def occ (f : Nat) : PluginOptionVal → Nat
  | .func g => if g = f then 1 else 0
  | .arr xs => occList f xs
  | .prom v => occ f v
  | _ => 0

/-- Number of `func f` nodes in a list of trees. -/
def occList (f : Nat) : List PluginOptionVal → Nat
  | [] => 0
  | x :: xs => occ f x + occList f xs

end

/-! ### Instrumented flatten loop

The same loop as `flattenLoop`, additionally returning, in order, the table
indices of the constructor functions that the passes invoked. -/

/-- Instrumented `.map` step: like `mapInvoke`, also recording which
constructors were invoked, in call order. -/
def mapInvokeRec (tbl : CtorTable) (env : PluginEnvironment) : List PluginOptionVal → Except Err (List PluginOptionVal × List Nat)
  | [] => .ok ([], [])
  | .func f :: rest =>
    match tbl f env with
    | .error e => .error e
    | .ok v =>
      match mapInvokeRec tbl env rest with
      | .error e => .error e
      | .ok (vs, inv) => .ok (v :: vs, f :: inv)
  | p :: rest =>
    match mapInvokeRec tbl env rest with
    | .error e => .error e
    | .ok (vs, inv) => .ok (p :: vs, inv)

/-- Instrumented flatten pass. -/
def flattenPassRec (tbl : CtorTable) (env : PluginEnvironment) (l : List PluginOptionVal) : Except Err (List PluginOptionVal × List Nat) :=
  match mapInvokeRec tbl env l with
  | .error e => .error e
  | .ok (m, inv) =>
    match awaitAll m with
    | .error e => .error e
    | .ok a => .ok ((flattenDeepList a).filter truthy, inv)

/-- Instrumented flatten loop: also returns all invoked constructor indices. -/
def flattenLoopRec (tbl : CtorTable) (env : PluginEnvironment) : Nat → List PluginOptionVal → Option (Except Err (List PluginOptionVal × List Nat))
  | 0, _ => none
  | fuel + 1, l =>
    match flattenPassRec tbl env l with
    | .error e => some (.error e)
    | .ok (l', inv) =>
      if l'.any pendingLike then
        match flattenLoopRec tbl env fuel l' with
        | none => none
        | some (.error e) => some (.error e)
        | some (.ok (res, inv')) => some (.ok (res, inv ++ inv'))
      else some (.ok (l', inv))

/-- Instrumented `asyncFlattenIsolatedPlugin`. -/
def asyncFlattenIsolatedPluginRec (tbl : CtorTable) (env : PluginEnvironment) (fuel : Nat) (plugins : PluginOptionVal) : Option (Except Err (List PluginOptionVal × List Nat)) :=
  flattenLoopRec tbl env fuel (match plugins with | .arr xs => xs | v => [v])

/-! ### Store-passing rendering

To state the frame property (resolution never mutates
`environment.config.plugins`), the same code is rendered over an explicit
mutable store.  Constructor calls are the only operations that receive and
return the store; the resolution code itself only reads `Store.plugins`,
mirroring the absence of any write to the config in the source. -/

/-- The mutable world visible to resolution: the environment's config list
and unrelated mutable state that constructors may touch. -/
structure Store where
  plugins : List TopEntry
  scratch : Nat
deriving DecidableEq

/-- Constructor semantics over the store: a call may read and mutate the
store in addition to returning a value or throwing. -/
abbrev CtorTableSt := Nat → String → Store → Except Err PluginOptionVal × Store

/-- Store-passing `.map` step of one flatten pass. -/
def mapInvokeSt (tbl : CtorTableSt) (env : String) : List PluginOptionVal → Store → Except Err (List PluginOptionVal) × Store
  | [], s => (.ok [], s)
  | .func f :: rest, s =>
    match tbl f env s with
    | (.error e, s') => (.error e, s')
    | (.ok v, s') =>
      match mapInvokeSt tbl env rest s' with
      | (.error e, s'') => (.error e, s'')
      | (.ok vs, s'') => (.ok (v :: vs), s'')
  | p :: rest, s =>
    match mapInvokeSt tbl env rest s with
    | (.error e, s') => (.error e, s')
    | (.ok vs, s') => (.ok (p :: vs), s')

/-- Store-passing flatten pass. -/
def flattenPassSt (tbl : CtorTableSt) (env : String) (l : List PluginOptionVal) (s : Store) : Except Err (List PluginOptionVal) × Store :=
  match mapInvokeSt tbl env l s with
  | (.error e, s') => (.error e, s')
  | (.ok m, s') =>
    match awaitAll m with
    | .error e => (.error e, s')
    | .ok a => (.ok ((flattenDeepList a).filter truthy), s')

/-- Store-passing flatten loop. -/
def flattenLoopSt (tbl : CtorTableSt) (env : String) : Nat → List PluginOptionVal → Store → Option (Except Err (List PluginOptionVal) × Store)
  | 0, _, _ => none
  | fuel + 1, l, s =>
    match flattenPassSt tbl env l s with
    | (.error e, s') => some (.error e, s')
    | (.ok l', s') =>
      if l'.any pendingLike then flattenLoopSt tbl env fuel l' s' else some (.ok l', s')

/-- Store-passing `asyncFlattenIsolatedPlugin`. -/
def asyncFlattenIsolatedPluginSt (tbl : CtorTableSt) (env : String) (fuel : Nat) (plugins : PluginOptionVal) (s : Store) : Option (Except Err (List PluginOptionVal) × Store) :=
  flattenLoopSt tbl env fuel (match plugins with | .arr xs => xs | v => [v]) s

/-- Store-passing entry loop of `resolveIsolatedPlugins`. -/
def resolveEntriesSt (tbl : CtorTableSt) (env : String) (fuel : Nat) : List TopEntry → Store → Option (Except Err (List PluginOptionVal) × Store)
  | [], s => some (.ok [], s)
  | .plug p :: rest, s =>
    match resolveEntriesSt tbl env fuel rest s with
    | none => none
    | some (.error e, s') => some (.error e, s')
    | some (.ok l, s') => some (.ok (.plug p :: l), s')
  | .ctor f :: rest, s =>
    match tbl f env s with
    | (.error e, s') => some (.error e, s')
    | (.ok v, s') =>
      match awaitVal v with
      | .error e => some (.error e, s')
      | .ok w =>
        if truthy w then
          match asyncFlattenIsolatedPluginSt tbl env fuel w s' with
          | none => none
          | some (.error e, s'') => some (.error e, s'')
          | some (.ok flat, s'') =>
            match resolveEntriesSt tbl env fuel rest s'' with
            | none => none
            | some (.error e, s₃) => some (.error e, s₃)
            | some (.ok l, s₃) => some (.ok (flat ++ l), s₃)
        else resolveEntriesSt tbl env fuel rest s'

/-- Store-passing `resolveIsolatedPlugins`: iterates over the config list
held in the store. -/
def resolveIsolatedPluginsSt (tbl : CtorTableSt) (env : String) (fuel : Nat) (s : Store) : Option (Except Err (List PluginOptionVal) × Store) :=
  resolveEntriesSt tbl env fuel s.plugins s

/-! ### Impure-context rendering for determinism

Constructors are given access to an ambient state of an arbitrary type; a
pure constructor is one whose result does not depend on that state.  Running
resolution twice means running it under two ambient states. -/

/-- Constructor semantics parameterized by an ambient state. -/
abbrev CtorTableAmb (σ : Type) := Nat → PluginEnvironment → σ → Except Err PluginOptionVal

/-- One run of `resolveIsolatedPlugins` under ambient state `s`. -/
def resolveUnderState {σ : Type} (tblS : CtorTableAmb σ) (s : σ) (fuel : Nat) (environment : PluginEnvironment) : Option (Except Err (List PluginOptionVal)) :=
  resolveIsolatedPlugins (fun f e => tblS f e s) fuel environment

/-! ### Shared-during-build instance model

Modelled from the spec: sections 3 and 4.3 state that with
`sharedDuringBuild: true` a single plugin instance (a single constructor
invocation result) is reused across every build environment created within
one build invocation, while with the flag absent or false each environment
receives its own freshly constructed instance.  The builder code
implementing this reuse is not part of the shown source, so instance
identity is modelled by allocation numbers: every fresh construction draws
the next number from a counter shared by the whole build invocation. -/

/-- Construct the first build environment's instances: every entry is
freshly constructed; returns each entry's instance number paired with its
`sharedDuringBuild` flag, and the advanced allocation counter. -/
def buildEnvOne : List Bool → Nat → List (Nat × Bool) × Nat
  | [], c => ([], c)
  | sh :: rest, c =>
    let (l, c') := buildEnvOne rest (c + 1)
    ((c, sh) :: l, c')

/-- Construct the second build environment's instances from the first
environment's: a shared entry reuses the existing instance, any other entry
is freshly constructed. -/
def buildEnvTwo : List (Nat × Bool) → Nat → List Nat × Nat
  | [], c => ([], c)
  | (i, sh) :: rest, c =>
    if sh then
      let (l, c') := buildEnvTwo rest c
      (i :: l, c')
    else
      let (l, c') := buildEnvTwo rest (c + 1)
      (c :: l, c')

/-- Instance numbers received by two build environments constructed within
one build invocation, from the entries' `sharedDuringBuild` flags. -/
def buildTwoEnvInstances (entries : List Bool) : List Nat × List Nat :=
  let (pairs, c₁) := buildEnvOne entries 0
  (pairs.map Prod.fst, (buildEnvTwo pairs c₁).1)

/-! ### Concrete plugins, environments and constructor tables

Used by the concrete-input theorems and by the witnesses. -/

/-- Plugin `A`. -/
def plugA : IsolatedPlugin := ⟨"A", false⟩

/-- Plugin `B`. -/
def plugB : IsolatedPlugin := ⟨"B", false⟩

/-- Plugin `C`. -/
def plugC : IsolatedPlugin := ⟨"C", false⟩

/-- Plugin `D0`. -/
def plugD0 : IsolatedPlugin := ⟨"D0", false⟩

/-- Plugin `D`. -/
def plugD : IsolatedPlugin := ⟨"D", false⟩

/-- Plugin `G`. -/
def plugG : IsolatedPlugin := ⟨"G", false⟩

/-- An environment with an empty top-level list, for normalizer-level runs. -/
def env0 : PluginEnvironment := ⟨"client", ⟨[]⟩⟩

/-- A constructor table whose constructors never run (inert). -/
def tblInert : CtorTable := fun _ _ => .ok .undefVal

/-- Table for the function-result counterexample: constructor `0` returns
the (uninvoked) constructor `1`. -/
def tblFn : CtorTable := fun f _ =>
  match f with
  | 0 => .ok (.func 1)
  | _ => .ok (.plug plugA)

/-- Table for the flatten law at resolve level: constructor `0` returns the
nested list `[A, false, [B, null], C]`. -/
def tblFlat : CtorTable := fun f _ =>
  match f with
  | 0 => .ok (.arr [.plug plugA, .fls, .arr [.plug plugB, .nul], .plug plugC])
  | _ => .ok .undefVal

/-- Environment whose top-level list is the single constructor `0`. -/
def envFlat : PluginEnvironment := ⟨"build", ⟨[.ctor 0]⟩⟩

/-- Table for async nesting: constructor `0` (the spec's `E`) returns a
promise resolving to `[D, F]` where `F` is constructor `1` returning `[G]`. -/
def tblNest : CtorTable := fun f _ =>
  match f with
  | 0 => .ok (.prom (.arr [.plug plugD, .func 1]))
  | 1 => .ok (.arr [.plug plugG])
  | _ => .ok .undefVal

/-- Environment declaring `[D0, E]` at top level. -/
def envNest : PluginEnvironment := ⟨"build", ⟨[.plug plugD0, .ctor 0]⟩⟩

/-- Table with a throwing constructor `1` (and a benign constructor `0`). -/
def tblBoom : CtorTable := fun f _ =>
  match f with
  | 0 => .ok (.plug plugA)
  | _ => .error "boom"

/-- Table for the repeated-invocation counterexample: constructor `0`
returns a singleton array containing constructor `0` again. -/
def tblSelf : CtorTable := fun f _ =>
  match f with
  | 0 => .ok (.arr [.func 0])
  | _ => .ok .undefVal

/-- Table whose constructor `0` returns `[A, promise(B)]`, never returning
any constructor function. -/
def tblFresh : CtorTable := fun f _ =>
  match f with
  | 0 => .ok (.arr [.plug plugA, .prom (.plug plugB)])
  | _ => .ok .undefVal

/-- A pure state-parameterized table: the ambient state is ignored. -/
def tblPure : CtorTableAmb Nat := fun _ _ _ => .ok (.plug plugA)

/-- Environment for the determinism witness: one constructor entry. -/
def envPure : PluginEnvironment := ⟨"dev", ⟨[.ctor 0]⟩⟩

/-- A store-passing table whose constructor mutates the scratch field but
leaves the config list unchanged. -/
def tblSt : CtorTableSt := fun f _ s =>
  match f with
  | 0 => (.ok (.plug plugA), { s with scratch := s.scratch + 1 })
  | _ => (.ok .undefVal, s)

/-- Initial store for the frame witness. -/
def storeInit : Store := ⟨[.ctor 0, .plug plugB], 0⟩

end ViteIsolatedPlugins

namespace ViteIsolatedPlugins

open PluginOptionVal

/-! ## Shape of the flatten loop's output -/

mutual

theorem flattenDeep_not_arr (v : PluginOptionVal) : ∀ x ∈ flattenDeep v, isArr x = false := by
  cases v with
  | arr xs => simpa [flattenDeep] using flattenDeepList_not_arr xs
  | plug p => simp [flattenDeep, isArr]
  | func f => simp [flattenDeep, isArr]
  | prom v => simp [flattenDeep, isArr]
  | promErr e => simp [flattenDeep, isArr]
  | str s => simp [flattenDeep, isArr]
  | num n => simp [flattenDeep, isArr]
  | fls => simp [flattenDeep, isArr]
  | nul => simp [flattenDeep, isArr]
  | undefVal => simp [flattenDeep, isArr]

theorem flattenDeepList_not_arr (l : List PluginOptionVal) : ∀ x ∈ flattenDeepList l, isArr x = false := by
  cases l with
  | nil => simp [flattenDeepList]
  | cons x xs =>
    intro y hy
    rw [flattenDeepList] at hy
    rcases List.mem_append.mp hy with h | h
    · exact flattenDeep_not_arr x y h
    · exact flattenDeepList_not_arr xs y h

end

theorem flattenPass_shape {tbl : CtorTable} {env : PluginEnvironment} {l l' : List PluginOptionVal}
    (h : flattenPass tbl env l = .ok l') : ∀ x ∈ l', truthy x = true ∧ isArr x = false := by
  unfold flattenPass at h
  split at h
  · cases h
  · split at h
    · cases h
    · rename_i a _
      injection h with h'
      subst h'
      intro x hx
      have hmem := List.mem_filter.mp hx
      exact ⟨hmem.2, flattenDeepList_not_arr a x hmem.1⟩

theorem flattenLoop_shape {tbl : CtorTable} {env : PluginEnvironment} :
    ∀ {fuel : Nat} {l l' : List PluginOptionVal}, flattenLoop tbl env fuel l = some (.ok l') →
      ∀ x ∈ l', truthy x = true ∧ isArr x = false ∧ pendingLike x = false := by
  intro fuel
  induction fuel with
  | zero => intro l l' h; cases h
  | succ n ih =>
    intro l l' h
    unfold flattenLoop at h
    split at h
    · simp at h
    · rename_i l₂ hp
      split at h
      · exact ih h
      · rename_i hpend
        injection h with h'
        injection h' with h''
        subst h''
        intro x hx
        have hs := flattenPass_shape hp x hx
        refine ⟨hs.1, hs.2, ?_⟩
        by_contra hpx
        exact hpend (List.any_eq_true.mpr ⟨x, hx, by simpa using hpx⟩)

/-! ## C1: what the flatten loop's output can contain -/

/-- C1, counterexample.  The claim states that `asyncFlattenIsolatedPlugin`
returns a sequence containing no functions even when a constructor's result
is itself a function.  On the code, constructor `0` returning the function
`1` makes the loop exit — the condition `v?.then || v?.split` does not
detect functions — and the returned sequence contains the never-invoked
function `1`. -/
theorem c1_function_survives_flatten :
    asyncFlattenIsolatedPlugin tblFn env0 5 (.func 0) = some (.ok [.func 1])
    ∧ isFunction (.func 1) = true :=
  ⟨rfl, rfl⟩

/-- C1, amended.  When `asyncFlattenIsolatedPlugin` terminates successfully,
its output contains no promise-like values, no strings, no arrays and no
falsy values; functions, however, can remain, because the loop's exit
condition `v?.then || v?.split` only re-runs a pass while a promise-like or
string element remains. -/
theorem c1_flatten_output_settled (tbl : CtorTable) (env : PluginEnvironment) (fuel : Nat)
    (plugins : PluginOptionVal) (l : List PluginOptionVal)
    (h : asyncFlattenIsolatedPlugin tbl env fuel plugins = some (.ok l)) :
    l.all (fun x => truthy x && !isArr x && !pendingLike x) = true := by
  rw [List.all_eq_true]
  intro x hx
  have hs := flattenLoop_shape h x hx
  simp [hs.1, hs.2.1, hs.2.2]

/-- C1, witness for the amended theorem at a concrete input. -/
theorem c1_flatten_output_settled_witness :
    ([PluginOptionVal.plug plugA]).all (fun x => truthy x && !isArr x && !pendingLike x) = true :=
  c1_flatten_output_settled tblFn env0 3 (.arr [.plug plugA, .fls]) [.plug plugA] rfl

/-! ## C2: malformed elements -/

/-- C2, counterexample.  The claim states that a malformed element (not a
function, not an object, not an array, not falsy) makes resolution fail
immediately.  On the code, the malformed number `5` is passed through
silently into the output with no error, and the malformed non-empty string
`"bad"` makes the loop spin without progress: after 100 passes it is still
running. -/
theorem c2_malformed_number_coerced :
    asyncFlattenIsolatedPlugin tblInert env0 3 (.num 5) = some (.ok [.num 5])
    ∧ truthy (.num 5) = true
    ∧ asyncFlattenIsolatedPlugin tblInert env0 100 (.str "bad") = none :=
  ⟨rfl, rfl, rfl⟩

/-- The flatten loop never finishes on a non-empty string element: the
string survives every pass and keeps the loop condition true. -/
theorem flattenLoop_string_diverges : ∀ fuel : Nat, flattenLoop tblInert env0 fuel [.str "bad"] = none := by
  intro fuel
  induction fuel with
  | zero => rfl
  | succ n ih => exact ih

/-- C2, amended.  A malformed element never surfaces a configuration error:
a malformed non-falsy value that is not a string (for example the number
`7`) is silently kept in the output, and a malformed non-empty string makes
the flatten loop fail to make progress — for every pass budget the loop is
still running, so the call neither fails nor returns. -/
theorem c2_malformed_behavior :
    (∀ fuel : Nat, asyncFlattenIsolatedPlugin tblInert env0 fuel (.str "bad") = none)
    ∧ asyncFlattenIsolatedPlugin tblInert env0 3 (.num 7) = some (.ok [.num 7]) :=
  ⟨fun fuel => flattenLoop_string_diverges fuel, rfl⟩

/-! ## C4: the flatten law -/

/-- C4.  For the input list `[A, false, [B, null], C]` the normalizer yields
exactly `[A, B, C]` in that order; likewise full resolution when a top-level
constructor produces that list. -/
theorem c4_flatten_law :
    asyncFlattenIsolatedPlugin tblInert env0 3
        (.arr [.plug plugA, .fls, .arr [.plug plugB, .nul], .plug plugC])
      = some (.ok [.plug plugA, .plug plugB, .plug plugC])
    ∧ resolveIsolatedPlugins tblFlat 3 envFlat
      = some (.ok [.plug plugA, .plug plugB, .plug plugC]) :=
  ⟨rfl, rfl⟩

/-! ## C5: async nesting -/

/-- C5.  With top-level list `[D0, E]`, constructor `E` returning a promise
resolving to `[D, F]` and constructor `F` returning `[G]`, resolution yields
`[D0, D, G]` in that order. -/
theorem c5_async_nesting :
    resolveIsolatedPlugins tblNest 3 envNest
      = some (.ok [.plug plugD0, .plug plugD, .plug plugG]) :=
  rfl

/-! ## C6: constructor failure fails the whole resolution -/

/-- A failing constructor call (synchronous throw or rejected promise)
fails the flatten loop as a whole. -/
theorem flatten_ctor_failure (tbl : CtorTable) (env : PluginEnvironment) (fuel : Nat) (f : Nat) (e : Err)
    (hf : callCtor tbl f env = .error e) :
    asyncFlattenIsolatedPlugin tbl env (fuel + 1) (.func f) = some (.error e) := by
  unfold callCtor at hf
  have hp : flattenPass tbl env [.func f] = .error e := by
    split at hf
    · rename_i e' ht
      injection hf with he
      subst he
      simp only [flattenPass, mapInvoke, mapOne, ht]
    · rename_i v ht
      simp only [flattenPass, mapInvoke, mapOne, awaitAll, ht, hf]
  show flattenLoop tbl env (fuel + 1) [.func f] = some (.error e)
  unfold flattenLoop
  rw [hp]

/-- C6.  If a prefix of the top-level entries resolves successfully and the
next entry is a constructor whose call (or awaited promise) fails, the whole
resolution fails with that error — no partial list is returned; the same
holds for a constructor failing inside the flatten loop. -/
theorem c6_constructor_failure_fails_resolution (tbl : CtorTable) (env : PluginEnvironment) (fuel : Nat)
    (pre rest : List TopEntry) (f : Nat) (e : Err) (l : List PluginOptionVal)
    (hpre : resolveEntries tbl env fuel pre = some (.ok l))
    (hf : callCtor tbl f env = .error e) :
    resolveEntries tbl env fuel (pre ++ .ctor f :: rest) = some (.error e)
    ∧ asyncFlattenIsolatedPlugin tbl env (fuel + 1) (.func f) = some (.error e) := by
  refine ⟨?_, flatten_ctor_failure tbl env fuel f e hf⟩
  induction pre generalizing l with
  | nil =>
    rw [List.nil_append]
    unfold resolveEntries
    rw [hf]
  | cons entry pre' ih =>
    rw [List.cons_append]
    cases entry with
    | plug p =>
      simp only [resolveEntries] at hpre ⊢
      split at hpre
      · cases hpre
      · simp at hpre
      · rename_i l₂ hr
        rw [ih l₂ hr]
    | ctor g =>
      simp only [resolveEntries] at hpre ⊢
      split at hpre
      · simp at hpre
      · rename_i v hc
        split at hpre
        · rename_i hv
          split at hpre
          · cases hpre
          · simp at hpre
          · rename_i flat hfl
            split at hpre
            · cases hpre
            · simp at hpre
            · rename_i l₂ hr
              rw [ih l₂ hr, if_pos hv]
        · rename_i hv
          rw [if_neg hv]
          exact ih l hpre

/-- C6, witness: with `pre = [A]` succeeding and constructor `1` throwing
`"boom"`, resolution of `[A, ctor 1, C]` fails with `"boom"`. -/
theorem c6_constructor_failure_fails_resolution_witness :
    resolveEntries tblBoom env0 3 ([.plug plugA] ++ .ctor 1 :: [.plug plugC]) = some (.error "boom")
    ∧ asyncFlattenIsolatedPlugin tblBoom env0 4 (.func 1) = some (.error "boom") :=
  c6_constructor_failure_fails_resolution tblBoom env0 3 [.plug plugA] [.plug plugC] 1 "boom"
    [.plug plugA] rfl rfl

/-! ## C7: determinism under pure constructors -/

/-- C7.  If every constructor is pure — its result does not depend on the
ambient state — then two resolution runs under different ambient states
return identical ordered results. -/
theorem c7_resolution_deterministic {σ : Type} (tblS : CtorTableAmb σ) (fuel : Nat)
    (environment : PluginEnvironment) (s₁ s₂ : σ)
    (hpure : ∀ f e s s', tblS f e s = tblS f e s') :
    resolveUnderState tblS s₁ fuel environment = resolveUnderState tblS s₂ fuel environment := by
  unfold resolveUnderState
  have htbl : (fun f e => tblS f e s₁) = (fun f e => tblS f e s₂) := by
    funext f e
    exact hpure f e s₁ s₂
  rw [htbl]

/-- C7, witness at a concrete pure table and two distinct states. -/
theorem c7_resolution_deterministic_witness :
    resolveUnderState tblPure 0 2 envPure = resolveUnderState tblPure 1 2 envPure :=
  c7_resolution_deterministic tblPure 2 envPure 0 1 (fun _ _ _ _ => rfl)

/-! ## Erasure lemmas: `false | null | undefined` leave no trace -/

theorem falsyConst_eraseV (v : PluginOptionVal) : falsyConst (eraseV v) = falsyConst v := by
  cases v <;> simp [eraseV, falsyConst]

theorem truthy_eraseV (v : PluginOptionVal) : truthy (eraseV v) = truthy v := by
  cases v <;> simp [eraseV, truthy]

theorem pendingLike_eraseV (v : PluginOptionVal) : pendingLike (eraseV v) = pendingLike v := by
  cases v <;> simp [eraseV, pendingLike]

theorem isFunction_eraseV (v : PluginOptionVal) : isFunction (eraseV v) = isFunction v := by
  cases v <;> simp [eraseV, isFunction]

theorem falsyConst_not_truthy {v : PluginOptionVal} (h : falsyConst v = true) : truthy v = false := by
  cases v <;> simp_all [falsyConst, truthy]

theorem truthy_not_falsyConst {v : PluginOptionVal} (h : truthy v = true) : falsyConst v = false := by
  cases v <;> simp_all [falsyConst, truthy]

mutual

theorem eraseV_idem (v : PluginOptionVal) : eraseV (eraseV v) = eraseV v := by
  cases v with
  | arr xs => simp [eraseV, eraseList_idem xs]
  | prom w => simp [eraseV, eraseV_idem w]
  | _ => simp [eraseV]

theorem eraseList_idem (l : List PluginOptionVal) : eraseList (eraseList l) = eraseList l := by
  cases l with
  | nil => simp [eraseList]
  | cons x xs =>
    by_cases h : falsyConst x = true
    · simp [eraseList, h, eraseList_idem xs]
    · have h2 : falsyConst (eraseV x) = falsyConst x := falsyConst_eraseV x
      simp [eraseList, h, h2, eraseV_idem x, eraseList_idem xs]

end

theorem eraseList_append (a b : List PluginOptionVal) :
    eraseList (a ++ b) = eraseList a ++ eraseList b := by
  induction a with
  | nil => simp [eraseList]
  | cons x xs ih => by_cases h : falsyConst x = true <;> simp [eraseList, h, ih]

theorem eraseList_singleton_eraseV (w : PluginOptionVal) :
    eraseList [eraseV w] = eraseList [w] := by
  by_cases hw : falsyConst w = true
  · have hfix : eraseV w = w := by cases w <;> simp_all [falsyConst, eraseV]
    rw [hfix]
  · simp [eraseList, falsyConst_eraseV, hw, eraseV_idem]

theorem awaitVal_erase : ∀ v : PluginOptionVal, awaitVal (eraseV v) = (awaitVal v).map eraseV
  | .prom w => by
    have ih := awaitVal_erase w
    simp only [eraseV, awaitVal]
    exact ih
  | .promErr e => by simp [eraseV, awaitVal, Except.map]
  | .plug p => by simp [eraseV, awaitVal, Except.map]
  | .func f => by simp [eraseV, awaitVal, Except.map]
  | .arr xs => by simp [eraseV, awaitVal, Except.map]
  | .str s => by simp [eraseV, awaitVal, Except.map]
  | .num n => by simp [eraseV, awaitVal, Except.map]
  | .fls => by simp [eraseV, awaitVal, Except.map]
  | .nul => by simp [eraseV, awaitVal, Except.map]
  | .undefVal => by simp [eraseV, awaitVal, Except.map]

mutual

theorem flattenDeep_erase (v : PluginOptionVal) (h : falsyConst v = false) :
    flattenDeep (eraseV v) = eraseList (flattenDeep v) := by
  cases v with
  | arr xs =>
    show flattenDeep (.arr (eraseList xs)) = eraseList (flattenDeep (.arr xs))
    rw [flattenDeep, flattenDeep, flattenDeepList_erase xs]
  | prom w => simp [eraseV, flattenDeep, eraseList, falsyConst]
  | plug p => simp [eraseV, flattenDeep, eraseList, falsyConst]
  | func f => simp [eraseV, flattenDeep, eraseList, falsyConst]
  | promErr e => simp [eraseV, flattenDeep, eraseList, falsyConst]
  | str s => simp [eraseV, flattenDeep, eraseList, falsyConst]
  | num n => simp [eraseV, flattenDeep, eraseList, falsyConst]
  | fls => simp [falsyConst] at h
  | nul => simp [falsyConst] at h
  | undefVal => simp [falsyConst] at h

theorem flattenDeepList_erase (l : List PluginOptionVal) :
    flattenDeepList (eraseList l) = eraseList (flattenDeepList l) := by
  cases l with
  | nil => simp [eraseList, flattenDeepList]
  | cons x xs =>
    by_cases h : falsyConst x = true
    · have hf : flattenDeep x = [x] := by
        cases x <;> simp_all [falsyConst, flattenDeep]
      simp [eraseList, h, flattenDeepList, hf, flattenDeepList_erase xs, eraseList_append]
    · simp [eraseList, h, flattenDeepList,
        flattenDeep_erase x (by simpa using h), flattenDeepList_erase xs, eraseList_append]

end

theorem filter_truthy_erase (l : List PluginOptionVal) :
    (eraseList l).filter truthy = eraseList (l.filter truthy) := by
  induction l with
  | nil => simp [eraseList]
  | cons x xs ih =>
    by_cases h : falsyConst x = true
    · have ht : truthy x = false := falsyConst_not_truthy h
      simp [eraseList, h, List.filter_cons, ht, ih]
    · by_cases ht : truthy x = true
      · simp [eraseList, h, List.filter_cons, ht, truthy_eraseV, ih]
      · simp only [Bool.not_eq_true] at ht
        simp [eraseList, h, List.filter_cons, ht, truthy_eraseV, ih]

theorem anyPending_erase (l : List PluginOptionVal) :
    (eraseList l).any pendingLike = l.any pendingLike := by
  induction l with
  | nil => simp [eraseList]
  | cons x xs ih =>
    by_cases h : falsyConst x = true
    · have hp : pendingLike x = false := by cases x <;> simp_all [falsyConst, pendingLike]
      simp [eraseList, h, hp, ih]
    · simp [eraseList, h, pendingLike_eraseV, ih]

theorem eraseList_cons_congr {v w : PluginOptionVal} {vs ws : List PluginOptionVal}
    (hvw : eraseList [v] = eraseList [w]) (hl : eraseList vs = eraseList ws) :
    eraseList (v :: vs) = eraseList (w :: ws) := by
  by_cases hv : falsyConst v = true <;> by_cases hw : falsyConst w = true <;>
    simp_all [eraseList]

theorem eraseOutcome_cons_ok {v w : PluginOptionVal} {vs ws : List PluginOptionVal}
    (hvw : eraseList [v] = eraseList [w]) (h : eraseList vs = eraseList ws) :
    eraseOutcome (.ok (v :: vs)) = eraseOutcome (.ok (w :: ws)) := by
  simp only [eraseOutcome]
  rw [Except.ok.injEq]
  exact eraseList_cons_congr hvw h

theorem mapOne_nonfunc (tbl : CtorTable) (env : PluginEnvironment) {y : PluginOptionVal}
    (hy : isFunction y = false) : mapOne tbl env y = .ok y := by
  cases y <;> simp_all [isFunction, mapOne]

theorem eraseOutcome_mapInvoke (tbl : CtorTable) (env : PluginEnvironment) :
    ∀ l : List PluginOptionVal,
      eraseOutcome (mapInvoke tbl env (eraseList l)) = eraseOutcome (mapInvoke tbl env l)
  | [] => rfl
  | x :: xs => by
    have ih := eraseOutcome_mapInvoke tbl env xs
    by_cases h : falsyConst x = true
    · have hm : mapOne tbl env x = .ok x := by cases x <;> simp_all [falsyConst, mapOne]
      simp only [eraseList, if_pos h]
      rw [ih]
      simp only [mapInvoke, hm]
      cases hxs : mapInvoke tbl env xs with
      | error e => rfl
      | ok vs => simp [eraseOutcome, eraseList, h]
    · simp only [eraseList, if_neg h]
      by_cases hfx : isFunction x = true
      · cases x <;> simp [isFunction] at hfx
        rename_i f
        show eraseOutcome (mapInvoke tbl env (.func f :: eraseList xs))
          = eraseOutcome (mapInvoke tbl env (.func f :: xs))
        simp only [mapInvoke, mapOne]
        cases ht : tbl f env with
        | error e => rfl
        | ok v =>
          cases h₁ : mapInvoke tbl env (eraseList xs) with
          | error e =>
            cases h₂ : mapInvoke tbl env xs with
            | error e₂ =>
              rw [h₁, h₂] at ih
              simp only [eraseOutcome] at ih
              exact ih
            | ok vs => rw [h₁, h₂] at ih; simp [eraseOutcome] at ih
          | ok vs' =>
            cases h₂ : mapInvoke tbl env xs with
            | error e₂ => rw [h₁, h₂] at ih; simp [eraseOutcome] at ih
            | ok vs =>
              rw [h₁, h₂] at ih
              simp only [eraseOutcome] at ih
              injection ih with ih₂
              exact eraseOutcome_cons_ok rfl ih₂
      · simp only [Bool.not_eq_true] at hfx
        have hx1 : mapOne tbl env x = .ok x := mapOne_nonfunc tbl env hfx
        have hx2 : mapOne tbl env (eraseV x) = .ok (eraseV x) :=
          mapOne_nonfunc tbl env (by rw [isFunction_eraseV]; exact hfx)
        simp only [mapInvoke, hx1, hx2]
        cases h₁ : mapInvoke tbl env (eraseList xs) with
        | error e =>
          cases h₂ : mapInvoke tbl env xs with
          | error e₂ =>
            rw [h₁, h₂] at ih
            simp only [eraseOutcome] at ih
            exact ih
          | ok vs => rw [h₁, h₂] at ih; simp [eraseOutcome] at ih
        | ok vs' =>
          cases h₂ : mapInvoke tbl env xs with
          | error e₂ => rw [h₁, h₂] at ih; simp [eraseOutcome] at ih
          | ok vs =>
            rw [h₁, h₂] at ih
            simp only [eraseOutcome] at ih
            injection ih with ih₂
            exact eraseOutcome_cons_ok (eraseList_singleton_eraseV x) ih₂

theorem eraseOutcome_awaitAll :
    ∀ m : List PluginOptionVal,
      eraseOutcome (awaitAll (eraseList m)) = eraseOutcome (awaitAll m)
  | [] => rfl
  | x :: xs => by
    have ih := eraseOutcome_awaitAll xs
    by_cases h : falsyConst x = true
    · have ha : awaitVal x = .ok x := by cases x <;> simp_all [falsyConst, awaitVal]
      simp only [eraseList, if_pos h]
      rw [ih]
      simp only [awaitAll, ha]
      cases hxs : awaitAll xs with
      | error e => rfl
      | ok vs => simp [eraseOutcome, eraseList, h]
    · simp only [eraseList, if_neg h]
      simp only [awaitAll]
      rw [awaitVal_erase x]
      cases hax : awaitVal x with
      | error e => rfl
      | ok w =>
        cases h₁ : awaitAll (eraseList xs) with
        | error e =>
          cases h₂ : awaitAll xs with
          | error e₂ =>
            rw [h₁, h₂] at ih
            simp only [eraseOutcome] at ih
            exact ih
          | ok vs => rw [h₁, h₂] at ih; simp [eraseOutcome] at ih
        | ok vs' =>
          cases h₂ : awaitAll xs with
          | error e₂ => rw [h₁, h₂] at ih; simp [eraseOutcome] at ih
          | ok vs =>
            rw [h₁, h₂] at ih
            simp only [eraseOutcome] at ih
            injection ih with ih₂
            exact eraseOutcome_cons_ok (eraseList_singleton_eraseV w) ih₂

theorem flattenPass_map_error {tbl : CtorTable} {env : PluginEnvironment}
    {l : List PluginOptionVal} {e : Err} (h : mapInvoke tbl env l = .error e) :
    flattenPass tbl env l = .error e := by
  unfold flattenPass
  rw [h]

theorem flattenPass_await_error {tbl : CtorTable} {env : PluginEnvironment}
    {l m : List PluginOptionVal} {e : Err} (hm : mapInvoke tbl env l = .ok m)
    (ha : awaitAll m = .error e) : flattenPass tbl env l = .error e := by
  unfold flattenPass
  rw [hm]
  show (match awaitAll m with
    | .error e => (.error e : Except Err (List PluginOptionVal))
    | .ok a => .ok ((flattenDeepList a).filter truthy)) = .error e
  rw [ha]

theorem flattenPass_ok {tbl : CtorTable} {env : PluginEnvironment}
    {l m a : List PluginOptionVal} (hm : mapInvoke tbl env l = .ok m)
    (ha : awaitAll m = .ok a) :
    flattenPass tbl env l = .ok ((flattenDeepList a).filter truthy) := by
  unfold flattenPass
  rw [hm]
  show (match awaitAll m with
    | .error e => (.error e : Except Err (List PluginOptionVal))
    | .ok a => .ok ((flattenDeepList a).filter truthy)) = _
  rw [ha]

theorem eraseOutcome_flattenPass_own (tbl : CtorTable) (env : PluginEnvironment) (l : List PluginOptionVal) :
    eraseOutcome (flattenPass tbl env (eraseList l)) = eraseOutcome (flattenPass tbl env l) := by
  have hm := eraseOutcome_mapInvoke tbl env l
  have key : ∀ z : List PluginOptionVal,
      eraseList ((flattenDeepList z).filter truthy) = (flattenDeepList (eraseList z)).filter truthy := by
    intro z
    rw [← filter_truthy_erase, flattenDeepList_erase]
  cases h₁ : mapInvoke tbl env (eraseList l) with
  | error e =>
    cases h₂ : mapInvoke tbl env l with
    | error e₂ =>
      rw [h₁, h₂] at hm
      simp only [eraseOutcome] at hm
      rw [flattenPass_map_error h₁, flattenPass_map_error h₂, hm]
    | ok m => rw [h₁, h₂] at hm; simp [eraseOutcome] at hm
  | ok m' =>
    cases h₂ : mapInvoke tbl env l with
    | error e₂ => rw [h₁, h₂] at hm; simp [eraseOutcome] at hm
    | ok m =>
      rw [h₁, h₂] at hm
      simp only [eraseOutcome] at hm
      injection hm with hm₂
      have ha : eraseOutcome (awaitAll m') = eraseOutcome (awaitAll m) := by
        calc eraseOutcome (awaitAll m')
            = eraseOutcome (awaitAll (eraseList m')) := (eraseOutcome_awaitAll m').symm
          _ = eraseOutcome (awaitAll (eraseList m)) := by rw [hm₂]
          _ = eraseOutcome (awaitAll m) := eraseOutcome_awaitAll m
      cases ha₁ : awaitAll m' with
      | error e =>
        cases ha₂ : awaitAll m with
        | error e₂ =>
          rw [ha₁, ha₂] at ha
          simp only [eraseOutcome] at ha
          rw [flattenPass_await_error h₁ ha₁, flattenPass_await_error h₂ ha₂, ha]
        | ok a => rw [ha₁, ha₂] at ha; simp [eraseOutcome] at ha
      | ok a' =>
        cases ha₂ : awaitAll m with
        | error e₂ => rw [ha₁, ha₂] at ha; simp [eraseOutcome] at ha
        | ok a =>
          rw [ha₁, ha₂] at ha
          simp only [eraseOutcome] at ha
          injection ha with ha₂'
          rw [flattenPass_ok h₁ ha₁, flattenPass_ok h₂ ha₂]
          simp only [eraseOutcome, Except.ok.injEq]
          rw [key, key, ha₂']

theorem eraseOutcome_flattenPass (tbl : CtorTable) (env : PluginEnvironment)
    {l₁ l₂ : List PluginOptionVal} (h : eraseList l₁ = eraseList l₂) :
    eraseOutcome (flattenPass tbl env l₁) = eraseOutcome (flattenPass tbl env l₂) := by
  calc eraseOutcome (flattenPass tbl env l₁)
      = eraseOutcome (flattenPass tbl env (eraseList l₁)) := (eraseOutcome_flattenPass_own tbl env l₁).symm
    _ = eraseOutcome (flattenPass tbl env (eraseList l₂)) := by rw [h]
    _ = eraseOutcome (flattenPass tbl env l₂) := eraseOutcome_flattenPass_own tbl env l₂

theorem eraseList_fixed {l : List PluginOptionVal}
    (hshape : ∀ x ∈ l, truthy x = true ∧ isArr x = false)
    (hpend : l.any pendingLike = false) : eraseList l = l := by
  induction l with
  | nil => rfl
  | cons x xs ih =>
    rw [List.any_cons, Bool.or_eq_false_iff] at hpend
    have hx := hshape x (List.mem_cons_self x xs)
    have hfix : eraseV x = x ∧ falsyConst x = false := by
      cases x <;> simp_all [truthy, isArr, pendingLike, eraseV, falsyConst]
    rw [eraseList, if_neg (by simp [hfix.2]), hfix.1,
      ih (fun y hy => hshape y (List.mem_cons_of_mem x hy)) hpend.2]

theorem flattenLoop_succ_step (tbl : CtorTable) (env : PluginEnvironment)
    (l : List PluginOptionVal) (n : Nat) :
    flattenLoop tbl env (n + 1) l
      = (match flattenPass tbl env l with
        | .error e => some (.error e)
        | .ok l' => if l'.any pendingLike = true then flattenLoop tbl env n l' else some (.ok l')) :=
  rfl

theorem flattenLoop_succ_error {tbl : CtorTable} {env : PluginEnvironment}
    {l : List PluginOptionVal} {e : Err} {n : Nat} (hp : flattenPass tbl env l = .error e) :
    flattenLoop tbl env (n + 1) l = some (.error e) := by
  rw [flattenLoop_succ_step, hp]

theorem flattenLoop_succ_pending {tbl : CtorTable} {env : PluginEnvironment}
    {l o : List PluginOptionVal} {n : Nat} (hp : flattenPass tbl env l = .ok o)
    (ho : o.any pendingLike = true) :
    flattenLoop tbl env (n + 1) l = flattenLoop tbl env n o := by
  rw [flattenLoop_succ_step, hp]
  show (if o.any pendingLike = true then flattenLoop tbl env n o else some (.ok o)) = _
  rw [if_pos ho]

theorem flattenLoop_succ_done {tbl : CtorTable} {env : PluginEnvironment}
    {l o : List PluginOptionVal} {n : Nat} (hp : flattenPass tbl env l = .ok o)
    (ho : o.any pendingLike = false) :
    flattenLoop tbl env (n + 1) l = some (.ok o) := by
  rw [flattenLoop_succ_step, hp]
  show (if o.any pendingLike = true then flattenLoop tbl env n o else some (.ok o)) = _
  rw [ho]
  simp

theorem flattenLoop_erase_congr (tbl : CtorTable) (env : PluginEnvironment) :
    ∀ (fuel : Nat) (l₁ l₂ : List PluginOptionVal), eraseList l₁ = eraseList l₂ →
      flattenLoop tbl env fuel l₁ = flattenLoop tbl env fuel l₂ := by
  intro fuel
  induction fuel with
  | zero => intro l₁ l₂ _; rfl
  | succ n ih =>
    intro l₁ l₂ h
    have hp := eraseOutcome_flattenPass tbl env h
    cases h₁ : flattenPass tbl env l₁ with
    | error e =>
      cases h₂ : flattenPass tbl env l₂ with
      | error e₂ =>
        rw [h₁, h₂] at hp
        simp only [eraseOutcome] at hp
        rw [flattenLoop_succ_error h₁, flattenLoop_succ_error h₂, hp]
      | ok o₂ => rw [h₁, h₂] at hp; simp [eraseOutcome] at hp
    | ok o₁ =>
      cases h₂ : flattenPass tbl env l₂ with
      | error e₂ => rw [h₁, h₂] at hp; simp [eraseOutcome] at hp
      | ok o₂ =>
        rw [h₁, h₂] at hp
        simp only [eraseOutcome] at hp
        injection hp with ho
        have hany : o₁.any pendingLike = o₂.any pendingLike := by
          rw [← anyPending_erase o₁, ho, anyPending_erase o₂]
        by_cases hp1 : o₁.any pendingLike = true
        · rw [flattenLoop_succ_pending h₁ hp1, flattenLoop_succ_pending h₂ (hany ▸ hp1)]
          exact ih o₁ o₂ ho
        · simp only [Bool.not_eq_true] at hp1
          rw [flattenLoop_succ_done h₁ hp1, flattenLoop_succ_done h₂ (by rw [← hany]; exact hp1)]
          have f₁ : eraseList o₁ = o₁ :=
            eraseList_fixed (fun x hx => flattenPass_shape h₁ x hx) hp1
          have f₂ : eraseList o₂ = o₂ :=
            eraseList_fixed (fun x hx => flattenPass_shape h₂ x hx) (by rw [← hany]; exact hp1)
          rw [← f₁, ho, f₂]

/-! ## C3: `false | null | undefined` contribute no element and no slot -/

/-- C3.  Erasing `false | null | undefined` at any depth of the input does
not change the normalizer's outcome (no element and no ordering slot is
contributed); a successful output never contains them; and at the top level
a constructor result that is falsy contributes nothing to resolution.  Top
level entries themselves are only plugins or constructors (section 4.2), so
no falsy value occurs there. -/
theorem c3_falsy_contribute_nothing :
    (∀ (tbl : CtorTable) (env : PluginEnvironment) (fuel : Nat) (v : PluginOptionVal),
        asyncFlattenIsolatedPlugin tbl env fuel (eraseV v) = asyncFlattenIsolatedPlugin tbl env fuel v)
    ∧ (∀ (tbl : CtorTable) (env : PluginEnvironment) (fuel : Nat) (v : PluginOptionVal)
        (l : List PluginOptionVal),
        asyncFlattenIsolatedPlugin tbl env fuel v = some (.ok l) →
        l.all (fun x => !falsyConst x) = true)
    ∧ (∀ (tbl : CtorTable) (env : PluginEnvironment) (fuel : Nat) (f : Nat) (rest : List TopEntry)
        (w : PluginOptionVal),
        callCtor tbl f env = .ok w → truthy w = false →
        resolveEntries tbl env fuel (.ctor f :: rest) = resolveEntries tbl env fuel rest) := by
  refine ⟨?_, ?_, ?_⟩
  · intro tbl env fuel v
    unfold asyncFlattenIsolatedPlugin
    apply flattenLoop_erase_congr
    cases v with
    | arr xs => simpa [eraseV] using eraseList_idem xs
    | plug p => simp [eraseV]
    | func f => simp [eraseV]
    | prom w => simpa [eraseV] using eraseList_singleton_eraseV (.prom w)
    | promErr e => simp [eraseV]
    | str s => simp [eraseV]
    | num n => simp [eraseV]
    | fls => simp [eraseV]
    | nul => simp [eraseV]
    | undefVal => simp [eraseV]
  · intro tbl env fuel v l h
    rw [List.all_eq_true]
    intro x hx
    have hs := flattenLoop_shape h x hx
    simp [truthy_not_falsyConst hs.1]
  · intro tbl env fuel f rest w hc hw
    simp only [resolveEntries, hc]
    rw [if_neg (by simp [hw])]

/-- C3, witness: erasing the `false` of `[A, false]` does not change the
normalizer's output, the output holds no falsy value, and a constructor
whose awaited result is `undefined` contributes nothing at resolve level. -/
theorem c3_falsy_contribute_nothing_witness :
    asyncFlattenIsolatedPlugin tblInert env0 3 (eraseV (.arr [.plug plugA, .fls]))
        = asyncFlattenIsolatedPlugin tblInert env0 3 (.arr [.plug plugA, .fls])
    ∧ ([PluginOptionVal.plug plugA].all (fun x => !falsyConst x) = true)
    ∧ resolveEntries tblInert env0 3 [.ctor 0, .plug plugB]
        = resolveEntries tblInert env0 3 [.plug plugB] :=
  ⟨c3_falsy_contribute_nothing.1 tblInert env0 3 (.arr [.plug plugA, .fls]),
   c3_falsy_contribute_nothing.2.1 tblInert env0 3 (.arr [.plug plugA, .fls]) [.plug plugA] rfl,
   c3_falsy_contribute_nothing.2.2 tblInert env0 3 0 [.plug plugB] .undefVal rfl rfl⟩

/-! ## Occurrence counting: how often a constructor is invoked -/

theorem occList_append (f : Nat) (a b : List PluginOptionVal) :
    occList f (a ++ b) = occList f a + occList f b := by
  induction a with
  | nil => simp [occList]
  | cons x xs ih => simp [occList, ih, Nat.add_assoc]

theorem awaitVal_occ (f : Nat) : ∀ (v : PluginOptionVal) {w : PluginOptionVal},
    awaitVal v = .ok w → occ f w = occ f v
  | .prom v', w, h => by
    have ih := awaitVal_occ f v' (w := w)
    simp only [awaitVal] at h
    simp only [occ]
    exact ih h
  | .promErr e, w, h => by simp [awaitVal] at h
  | .plug p, w, h => by simp only [awaitVal] at h; injection h with h'; subst h'; rfl
  | .func g, w, h => by simp only [awaitVal] at h; injection h with h'; subst h'; rfl
  | .arr xs, w, h => by simp only [awaitVal] at h; injection h with h'; subst h'; rfl
  | .str s, w, h => by simp only [awaitVal] at h; injection h with h'; subst h'; rfl
  | .num n, w, h => by simp only [awaitVal] at h; injection h with h'; subst h'; rfl
  | .fls, w, h => by simp only [awaitVal] at h; injection h with h'; subst h'; rfl
  | .nul, w, h => by simp only [awaitVal] at h; injection h with h'; subst h'; rfl
  | .undefVal, w, h => by simp only [awaitVal] at h; injection h with h'; subst h'; rfl

theorem awaitAll_occ {f : Nat} : ∀ {m a : List PluginOptionVal},
    awaitAll m = .ok a → occList f a = occList f m := by
  intro m
  induction m with
  | nil =>
    intro a h
    simp only [awaitAll] at h
    injection h with h'
    subst h'
    rfl
  | cons x xs ih =>
    intro a h
    simp only [awaitAll] at h
    split at h
    · cases h
    · rename_i v hv
      split at h
      · cases h
      · rename_i vs hvs
        injection h with h'
        subst h'
        simp only [occList]
        rw [ih hvs, awaitVal_occ f x hv]

mutual

theorem flattenDeep_occ (f : Nat) (v : PluginOptionVal) :
    occList f (flattenDeep v) = occ f v := by
  cases v with
  | arr xs =>
    rw [flattenDeep, occ]
    exact flattenDeepList_occ f xs
  | plug p => simp [flattenDeep, occList]
  | func g => simp [flattenDeep, occList]
  | prom w => simp [flattenDeep, occList]
  | promErr e => simp [flattenDeep, occList]
  | str s => simp [flattenDeep, occList]
  | num n => simp [flattenDeep, occList]
  | fls => simp [flattenDeep, occList]
  | nul => simp [flattenDeep, occList]
  | undefVal => simp [flattenDeep, occList]

theorem flattenDeepList_occ (f : Nat) (l : List PluginOptionVal) :
    occList f (flattenDeepList l) = occList f l := by
  cases l with
  | nil => simp [flattenDeepList, occList]
  | cons x xs =>
    rw [flattenDeepList, occList_append, flattenDeep_occ f x, flattenDeepList_occ f xs, occList]

end

theorem filter_occ (f : Nat) (p : PluginOptionVal → Bool) :
    ∀ l : List PluginOptionVal, occList f (l.filter p) ≤ occList f l := by
  intro l
  induction l with
  | nil => simp [occList]
  | cons x xs ih =>
    rw [List.filter_cons]
    by_cases h : p x = true
    · rw [if_pos h]
      simp only [occList]
      omega
    · rw [if_neg h]
      simp only [occList]
      omega

theorem mapInvokeRec_cons_nonfunc (tbl : CtorTable) (env : PluginEnvironment)
    {x : PluginOptionVal} (hx : isFunction x = false) (xs : List PluginOptionVal) :
    mapInvokeRec tbl env (x :: xs)
      = (match mapInvokeRec tbl env xs with
        | .error e => .error e
        | .ok (vs, inv) => .ok (x :: vs, inv)) := by
  cases x <;> first | rfl | (simp [isFunction] at hx)

theorem mapInvokeRec_occ {tbl : CtorTable} {env : PluginEnvironment} {f : Nat}
    (hfresh : ∀ g w, tbl g env = .ok w → occ f w = 0) :
    ∀ {l vs : List PluginOptionVal} {inv : List Nat},
      mapInvokeRec tbl env l = .ok (vs, inv) → inv.count f + occList f vs ≤ occList f l := by
  intro l
  induction l with
  | nil =>
    intro vs inv h
    injection h with h'
    cases h'
    simp [occList]
  | cons x xs ih =>
    intro vs inv h
    by_cases hfx : isFunction x = true
    · cases x <;> simp [isFunction] at hfx
      rename_i g
      rw [show mapInvokeRec tbl env (.func g :: xs)
          = (match tbl g env with
            | .error e => .error e
            | .ok v =>
              match mapInvokeRec tbl env xs with
              | .error e => .error e
              | .ok (vs, inv) => .ok (v :: vs, g :: inv)) from rfl] at h
      split at h
      · cases h
      · rename_i v ht
        split at h
        · cases h
        · rename_i vs₂ inv₂ hrec
          injection h with h'
          cases h'
          have h₁ := ih hrec
          have h₂ := hfresh g v ht
          by_cases hgf : g = f
          · subst hgf
            simp only [occList, occ, h₂, if_pos rfl]
            simp only [List.count_cons]
            simp
            omega
          · simp only [occList, occ, h₂, if_neg hgf]
            simp only [List.count_cons]
            simp [hgf]
            omega
    · simp only [Bool.not_eq_true] at hfx
      rw [mapInvokeRec_cons_nonfunc tbl env hfx] at h
      split at h
      · cases h
      · rename_i vs₂ inv₂ hrec
        injection h with h'
        cases h'
        have h₁ := ih hrec
        simp only [occList]
        omega

theorem flattenPassRec_occ {tbl : CtorTable} {env : PluginEnvironment} {f : Nat}
    (hfresh : ∀ g w, tbl g env = .ok w → occ f w = 0)
    {l l' : List PluginOptionVal} {inv : List Nat}
    (h : flattenPassRec tbl env l = .ok (l', inv)) :
    inv.count f + occList f l' ≤ occList f l := by
  unfold flattenPassRec at h
  split at h
  · cases h
  · rename_i m inv₁ hm
    split at h
    · cases h
    · rename_i a ha
      injection h with h'
      cases h'
      have h₁ := mapInvokeRec_occ hfresh hm
      have h₂ := awaitAll_occ (f := f) ha
      have h₃ := flattenDeepList_occ f a
      have h₄ := filter_occ f truthy (flattenDeepList a)
      omega

theorem flattenLoopRec_succ_step (tbl : CtorTable) (env : PluginEnvironment)
    (l : List PluginOptionVal) (n : Nat) :
    flattenLoopRec tbl env (n + 1) l
      = (match flattenPassRec tbl env l with
        | .error e => some (.error e)
        | .ok (l', inv) =>
          if l'.any pendingLike = true then
            match flattenLoopRec tbl env n l' with
            | none => none
            | some (.error e) => some (.error e)
            | some (.ok (res, inv')) => some (.ok (res, inv ++ inv'))
          else some (.ok (l', inv))) :=
  rfl

theorem flattenLoopRec_occ {tbl : CtorTable} {env : PluginEnvironment} {f : Nat}
    (hfresh : ∀ g w, tbl g env = .ok w → occ f w = 0) :
    ∀ {fuel : Nat} {l res : List PluginOptionVal} {inv : List Nat},
      flattenLoopRec tbl env fuel l = some (.ok (res, inv)) → inv.count f ≤ occList f l := by
  intro fuel
  induction fuel with
  | zero => intro l res inv h; cases h
  | succ n ih =>
    intro l res inv h
    rw [flattenLoopRec_succ_step] at h
    split at h
    · simp at h
    · rename_i l' inv₁ hp
      split at h
      · split at h
        · cases h
        · simp at h
        · rename_i res₂ inv₂ hrec
          injection h with h'
          injection h' with h''
          cases h''
          have h₁ := flattenPassRec_occ hfresh hp
          have h₂ := ih hrec
          rw [List.count_append]
          omega
      · injection h with h'
        injection h' with h''
        cases h''
        have h₁ := flattenPassRec_occ hfresh hp
        omega

theorem occ_wrap (f : Nat) (v : PluginOptionVal) :
    occList f (match v with | .arr xs => xs | v => [v]) = occ f v := by
  cases v <;> simp [occList, occ]

/-! ## C8: how often one constructor occurrence is invoked -/

/-- C8, counterexample.  The claim states that a constructor function
occurring in the tree is invoked at most once per environment and never
re-invoked in later passes.  On the code, constructor `0` occurs once in the
input tree, its result re-contains constructor `0`, and the run — which
terminates — invokes constructor `0` twice (invocation record `[0, 0]`). -/
theorem c8_constructor_invoked_twice :
    asyncFlattenIsolatedPluginRec tblSelf env0 5 (.arr [.func 0, .arr [.prom (.plug plugB)]])
        = some (.ok ([.func 0, .plug plugB], [0, 0]))
    ∧ occ 0 (.arr [.func 0, .arr [.prom (.plug plugB)]]) = 1
    ∧ List.count 0 [0, 0] = 2 :=
  ⟨rfl, rfl, rfl⟩

/-- C8, amended.  A function element is invoked at most once: if constructor
`f` occurs at most once in the input tree and no constructor result
re-introduces a `f` node, then a successful flatten run invokes `f` at most
once.  (If a constructor's result contains `f` again — even the same
function — the new element is invoked in a later pass, so without that
freshness condition a constructor can run more than once, as the
counterexample shows.) -/
theorem c8_occurrence_invoked_at_most_once (tbl : CtorTable) (env : PluginEnvironment) (fuel : Nat)
    (f : Nat) (v : PluginOptionVal) (res : List PluginOptionVal) (inv : List Nat)
    (hfresh : ∀ g w, tbl g env = .ok w → occ f w = 0)
    (hocc : occ f v ≤ 1)
    (hrun : asyncFlattenIsolatedPluginRec tbl env fuel v = some (.ok (res, inv))) :
    inv.count f ≤ 1 := by
  unfold asyncFlattenIsolatedPluginRec at hrun
  have hcount := flattenLoopRec_occ hfresh hrun
  rw [occ_wrap] at hcount
  omega

/-- C8, witness for the amended theorem: constructor `0` returning
`[A, promise(B)]` is invoked exactly once in a terminating run. -/
theorem c8_occurrence_invoked_at_most_once_witness : List.count 0 [0] ≤ 1 :=
  c8_occurrence_invoked_at_most_once tblFresh env0 5 0 (.arr [.func 0])
    [.plug plugA, .plug plugB] [0]
    (fun g w h => by
      cases g with
      | zero => cases h; rfl
      | succ n => cases h; rfl)
    (by simp [occ, occList])
    rfl

/-! ## C9: shared-during-build instances -/

theorem buildEnvOne_counter : ∀ (entries : List Bool) (c : Nat),
    (buildEnvOne entries c).2 = c + entries.length := by
  intro entries
  induction entries with
  | nil => intro c; simp [buildEnvOne]
  | cons sh rest ih =>
    intro c
    simp only [buildEnvOne, ih]
    simp
    omega

theorem buildEnvOne_length : ∀ (entries : List Bool) (c : Nat),
    ((buildEnvOne entries c).1).length = entries.length := by
  intro entries
  induction entries with
  | nil => intro c; simp [buildEnvOne]
  | cons sh rest ih => intro c; simp [buildEnvOne, ih]

theorem buildEnvOne_get : ∀ (entries : List Bool) (c i : Nat),
    ((buildEnvOne entries c).1)[i]? = (entries[i]?).map (fun sh => (c + i, sh)) := by
  intro entries
  induction entries with
  | nil => intro c i; simp [buildEnvOne]
  | cons sh rest ih =>
    intro c i
    cases i with
    | zero => simp [buildEnvOne]
    | succ j =>
      simp only [buildEnvOne, List.getElem?_cons_succ]
      rw [ih (c + 1) j]
      have harith : c + 1 + j = c + (j + 1) := by omega
      rw [harith]

theorem buildEnvTwo_length : ∀ (pairs : List (Nat × Bool)) (c : Nat),
    ((buildEnvTwo pairs c).1).length = pairs.length := by
  intro pairs
  induction pairs with
  | nil => intro c; simp [buildEnvTwo]
  | cons p rest ih =>
    intro c
    obtain ⟨pid, psh⟩ := p
    cases psh <;> simp [buildEnvTwo, ih]

theorem buildEnvTwo_shared : ∀ (pairs : List (Nat × Bool)) (c i j : Nat),
    pairs[i]? = some (j, true) → ((buildEnvTwo pairs c).1)[i]? = some j := by
  intro pairs
  induction pairs with
  | nil => intro c i j h; simp at h
  | cons p rest ih =>
    intro c i j h
    obtain ⟨pid, psh⟩ := p
    cases i with
    | zero =>
      rw [List.getElem?_cons_zero] at h
      cases psh with
      | true =>
        simp only [Option.some.injEq, Prod.mk.injEq] at h
        obtain ⟨h1, _⟩ := h
        subst h1
        simp [buildEnvTwo]
      | false => simp at h
    | succ k =>
      rw [List.getElem?_cons_succ] at h
      cases psh with
      | true =>
        simp only [buildEnvTwo, if_true]
        rw [List.getElem?_cons_succ]
        exact ih c k j h
      | false =>
        simp only [buildEnvTwo]
        rw [if_neg (by simp)]
        simp only [List.getElem?_cons_succ]
        exact ih (c + 1) k j h

theorem buildEnvTwo_fresh_ge : ∀ (pairs : List (Nat × Bool)) (c i j : Nat),
    pairs[i]? = some (j, false) →
      ∀ k : Nat, ((buildEnvTwo pairs c).1)[i]? = some k → c ≤ k := by
  intro pairs
  induction pairs with
  | nil => intro c i j h; simp at h
  | cons p rest ih =>
    intro c i j h k hk
    obtain ⟨pid, psh⟩ := p
    cases i with
    | zero =>
      rw [List.getElem?_cons_zero] at h
      cases psh with
      | true => simp at h
      | false =>
        simp only [buildEnvTwo] at hk
        rw [if_neg (by simp)] at hk
        simp only [List.getElem?_cons_zero, Option.some.injEq] at hk
        omega
    | succ m =>
      rw [List.getElem?_cons_succ] at h
      cases psh with
      | true =>
        simp only [buildEnvTwo, if_true] at hk
        rw [List.getElem?_cons_succ] at hk
        exact ih c m j h k hk
      | false =>
        simp only [buildEnvTwo] at hk
        rw [if_neg (by simp)] at hk
        simp only [List.getElem?_cons_succ] at hk
        have := ih (c + 1) m j h k hk
        omega

/-- C9.  In the shared-during-build model (see `buildTwoEnvInstances`), an
entry carrying `sharedDuringBuild = true` gives both build environments the
identical instance, while an entry without the flag gives each environment
its own, distinct, freshly allocated instance. -/
theorem c9_shared_during_build (entries : List Bool) (i : Nat) :
    (entries[i]? = some true →
      (buildTwoEnvInstances entries).1[i]? = (buildTwoEnvInstances entries).2[i]?
      ∧ ((buildTwoEnvInstances entries).1[i]?).isSome = true)
    ∧ (entries[i]? = some false →
      ((buildTwoEnvInstances entries).1[i]?).isSome = true
      ∧ ((buildTwoEnvInstances entries).2[i]?).isSome = true
      ∧ (buildTwoEnvInstances entries).1[i]? ≠ (buildTwoEnvInstances entries).2[i]?) := by
  have hunfold : buildTwoEnvInstances entries
      = ((buildEnvOne entries 0).1.map Prod.fst,
         (buildEnvTwo (buildEnvOne entries 0).1 ((buildEnvOne entries 0).2)).1) := rfl
  constructor
  · intro h
    have hlen : i < entries.length := by
      by_contra hlt
      rw [List.getElem?_eq_none (by omega)] at h
      cases h
    have hone := buildEnvOne_get entries 0 i
    rw [h] at hone
    simp only [Option.map_some'] at hone
    have henv1 : (buildTwoEnvInstances entries).1[i]? = some (0 + i) := by
      rw [hunfold]
      simp only [List.getElem?_map, hone, Option.map_some']
    have henv2 : (buildTwoEnvInstances entries).2[i]? = some (0 + i) := by
      rw [hunfold]
      exact buildEnvTwo_shared (buildEnvOne entries 0).1 ((buildEnvOne entries 0).2) i (0 + i) hone
    rw [henv1, henv2]
    simp
  · intro h
    have hlen : i < entries.length := by
      by_contra hlt
      rw [List.getElem?_eq_none (by omega)] at h
      cases h
    have hone := buildEnvOne_get entries 0 i
    rw [h] at hone
    simp only [Option.map_some'] at hone
    have henv1 : (buildTwoEnvInstances entries).1[i]? = some (0 + i) := by
      rw [hunfold]
      simp only [List.getElem?_map, hone, Option.map_some']
    have hlen2 : i < ((buildEnvTwo (buildEnvOne entries 0).1 ((buildEnvOne entries 0).2)).1).length := by
      rw [buildEnvTwo_length, buildEnvOne_length]
      exact hlen
    have hsome2 : ((buildTwoEnvInstances entries).2[i]?).isSome = true := by
      rw [hunfold]
      simp [List.getElem?_eq_getElem hlen2]
    refine ⟨by rw [henv1]; rfl, hsome2, ?_⟩
    obtain ⟨k, hk⟩ := Option.isSome_iff_exists.mp hsome2
    have hke : ((buildEnvTwo (buildEnvOne entries 0).1 ((buildEnvOne entries 0).2)).1)[i]? = some k := by
      rw [hunfold] at hk
      exact hk
    have hge := buildEnvTwo_fresh_ge (buildEnvOne entries 0).1 ((buildEnvOne entries 0).2) i (0 + i)
      hone k hke
    rw [buildEnvOne_counter] at hge
    rw [henv1, hk]
    intro hcontra
    injection hcontra with hcontra'
    omega

/-- C9, witness: with flags `[true, false]`, entry 0's instance is shared
between the two environments and entry 1's instances are distinct. -/
theorem c9_shared_during_build_witness :
    (buildTwoEnvInstances [true, false]).1[0]? = (buildTwoEnvInstances [true, false]).2[0]?
    ∧ (buildTwoEnvInstances [true, false]).1[1]? ≠ (buildTwoEnvInstances [true, false]).2[1]? :=
  ⟨((c9_shared_during_build [true, false] 0).1 rfl).1,
   ((c9_shared_during_build [true, false] 1).2 rfl).2.2⟩

/-! ## C10: resolution never mutates the config -/

theorem mapInvokeSt_cons_nonfunc (tbl : CtorTableSt) (env : String) {x : PluginOptionVal}
    (hx : isFunction x = false) (xs : List PluginOptionVal) (s : Store) :
    mapInvokeSt tbl env (x :: xs) s
      = (match mapInvokeSt tbl env xs s with
        | (.error e, s') => (.error e, s')
        | (.ok vs, s') => (.ok (x :: vs), s')) := by
  cases x <;> first | rfl | (simp [isFunction] at hx)

theorem mapInvokeSt_frame (tbl : CtorTableSt) (env : String)
    (hframe : ∀ f e s, ((tbl f e s).2).plugins = s.plugins) :
    ∀ (l : List PluginOptionVal) (s : Store), ((mapInvokeSt tbl env l s).2).plugins = s.plugins := by
  intro l
  induction l with
  | nil => intro s; rfl
  | cons x xs ih =>
    intro s
    by_cases hfx : isFunction x = true
    · cases x <;> simp [isFunction] at hfx
      rename_i f
      show ((mapInvokeSt tbl env (.func f :: xs) s).2).plugins = s.plugins
      simp only [mapInvokeSt]
      split
      · rename_i e s' heq
        have h1 := hframe f env s
        rw [heq] at h1
        exact h1
      · rename_i v s' heq
        have h1 := hframe f env s
        rw [heq] at h1
        split
        · rename_i e s'' heq2
          have h2 := ih s'
          rw [heq2] at h2
          exact h2.trans h1
        · rename_i vs s'' heq2
          have h2 := ih s'
          rw [heq2] at h2
          exact h2.trans h1
    · simp only [Bool.not_eq_true] at hfx
      rw [mapInvokeSt_cons_nonfunc tbl env hfx xs s]
      split
      · rename_i e s' heq
        have h2 := ih s
        rw [heq] at h2
        exact h2
      · rename_i vs s' heq
        have h2 := ih s
        rw [heq] at h2
        exact h2

theorem flattenPassSt_frame (tbl : CtorTableSt) (env : String)
    (hframe : ∀ f e s, ((tbl f e s).2).plugins = s.plugins)
    (l : List PluginOptionVal) (s : Store) :
    ((flattenPassSt tbl env l s).2).plugins = s.plugins := by
  unfold flattenPassSt
  split
  · rename_i e s' heq
    have h1 := mapInvokeSt_frame tbl env hframe l s
    rw [heq] at h1
    exact h1
  · rename_i m s' heq
    have h1 := mapInvokeSt_frame tbl env hframe l s
    rw [heq] at h1
    split
    · exact h1
    · exact h1

theorem flattenLoopSt_frame (tbl : CtorTableSt) (env : String)
    (hframe : ∀ f e s, ((tbl f e s).2).plugins = s.plugins) :
    ∀ (fuel : Nat) (l : List PluginOptionVal) (s : Store) (r : Except Err (List PluginOptionVal))
      (s' : Store), flattenLoopSt tbl env fuel l s = some (r, s') → s'.plugins = s.plugins := by
  intro fuel
  induction fuel with
  | zero => intro l s r s' h; cases h
  | succ n ih =>
    intro l s r s' h
    rw [show flattenLoopSt tbl env (n + 1) l s
        = (match flattenPassSt tbl env l s with
          | (.error e, s') => some (.error e, s')
          | (.ok l', s') =>
            if l'.any pendingLike = true then flattenLoopSt tbl env n l' s'
            else some (.ok l', s')) from rfl] at h
    split at h
    · rename_i e s₁ heq
      injection h with h'
      cases h'
      have hp := flattenPassSt_frame tbl env hframe l s
      rw [heq] at hp
      exact hp
    · rename_i l' s₁ heq
      have hp := flattenPassSt_frame tbl env hframe l s
      rw [heq] at hp
      split at h
      · exact (ih l' s₁ r s' h).trans hp
      · injection h with h'
        cases h'
        exact hp

theorem asyncFlattenIsolatedPluginSt_frame (tbl : CtorTableSt) (env : String)
    (hframe : ∀ f e s, ((tbl f e s).2).plugins = s.plugins)
    (fuel : Nat) (v : PluginOptionVal) (s : Store) (r : Except Err (List PluginOptionVal))
    (s' : Store) (h : asyncFlattenIsolatedPluginSt tbl env fuel v s = some (r, s')) :
    s'.plugins = s.plugins :=
  flattenLoopSt_frame tbl env hframe fuel _ s r s' h

theorem resolveEntriesSt_frame (tbl : CtorTableSt) (env : String) (fuel : Nat)
    (hframe : ∀ f e s, ((tbl f e s).2).plugins = s.plugins) :
    ∀ (entries : List TopEntry) (s : Store) (r : Except Err (List PluginOptionVal)) (s' : Store),
      resolveEntriesSt tbl env fuel entries s = some (r, s') → s'.plugins = s.plugins := by
  intro entries
  induction entries with
  | nil =>
    intro s r s' h
    injection h with h'
    cases h'
    rfl
  | cons entry rest ih =>
    intro s r s' h
    cases entry with
    | plug p =>
      simp only [resolveEntriesSt] at h
      split at h
      · cases h
      · rename_i e s₁ heq
        injection h with h'
        cases h'
        exact ih s _ _ heq
      · rename_i l s₁ heq
        injection h with h'
        cases h'
        exact ih s _ _ heq
    | ctor f =>
      simp only [resolveEntriesSt] at h
      split at h
      · rename_i e s₁ heq
        injection h with h'
        cases h'
        have h1 := hframe f env s
        rw [heq] at h1
        exact h1
      · rename_i v s₁ heq
        have h1 := hframe f env s
        rw [heq] at h1
        split at h
        · injection h with h'
          cases h'
          exact h1
        · rename_i w hw
          split at h
          · split at h
            · cases h
            · rename_i e s₂ heq2
              injection h with h'
              cases h'
              exact (asyncFlattenIsolatedPluginSt_frame tbl env hframe _ _ _ _ _ heq2).trans h1
            · rename_i flat s₂ heq2
              have h2 := (asyncFlattenIsolatedPluginSt_frame tbl env hframe _ _ _ _ _ heq2).trans h1
              split at h
              · cases h
              · rename_i e s₃ heq3
                injection h with h'
                cases h'
                exact (ih s₂ _ _ heq3).trans h2
              · rename_i l s₃ heq3
                injection h with h'
                cases h'
                exact (ih s₂ _ _ heq3).trans h2
          · exact (ih s₁ _ _ h).trans h1

/-- C10.  Rendering resolution over an explicit mutable store: if every
constructor call leaves `config.plugins` unchanged, then any completed run
of `resolveIsolatedPlugins` (successful or failed) leaves the store's
`plugins` list exactly as it was — resolution itself performs no write to
the config, it only reads it and builds a fresh output list. -/
theorem c10_resolution_preserves_config (tbl : CtorTableSt) (env : String) (fuel : Nat)
    (s : Store) (r : Except Err (List PluginOptionVal)) (s' : Store)
    (hframe : ∀ f e st, ((tbl f e st).2).plugins = st.plugins)
    (h : resolveIsolatedPluginsSt tbl env fuel s = some (r, s')) :
    s'.plugins = s.plugins := by
  unfold resolveIsolatedPluginsSt at h
  exact resolveEntriesSt_frame tbl env fuel hframe s.plugins s r s' h

/-- C10, witness: a run whose constructor mutates the scratch field leaves
the config list untouched. -/
theorem c10_resolution_preserves_config_witness :
    (Store.mk [TopEntry.ctor 0, TopEntry.plug plugB] 1).plugins = storeInit.plugins :=
  c10_resolution_preserves_config tblSt "build1" 3 storeInit
    (.ok [.plug plugA, .plug plugB]) ⟨[.ctor 0, .plug plugB], 1⟩
    (fun f _ st => by cases f <;> rfl) rfl

end ViteIsolatedPlugins
